import Mathlib

/-!
Verification development for the JSON-to-document resume generator.

Python strings are embedded as `List Char` (`Str`); dictionaries whose key
sets are fixed by the code are embedded as structures with `Option` fields
(`none` = key absent); insertion-ordered dictionaries with data-dependent
keys are embedded as association lists in insertion order.  Fallible
operations return `Except`/`Option`; filesystem effects are embedded as an
explicit action trace; CPython object identity, where a claim depends on
it, is embedded as an explicit store of addresses.
-/

namespace ResumeGen

/-- Python `str` embedded as a list of characters. -/
abbrev Str := List Char

/-- Characters matched by the regex class `\s` (Python whitespace, ASCII part)
and stripped by `str.strip()`. -/
def isPySpace (c : Char) : Bool :=
  c = ' ' || c = '\t' || c = '\n' || c = '\r' || c = '\x0b' || c = '\x0c'

/-- `str.strip()`: drop leading whitespace. -/
def dropLeading (s : Str) : Str := s.dropWhile isPySpace

/-- `str.strip()`: drop trailing whitespace. -/
def dropTrailing (s : Str) : Str := ((s.reverse).dropWhile isPySpace).reverse

/-- Python `str.strip()` with no arguments. -/
def strip (s : Str) : Str := dropTrailing (dropLeading s)

/-- Characters of the regex class `[\s\-\(\)\.]` used by
`JSONValidator.validate_phone` and `JSONValidator.clean_data`. -/
def isSep (c : Char) : Bool :=
  isPySpace c || c = '-' || c = '(' || c = ')' || c = '.'

/-- Worker for `re.sub(r'[\s\-\(\)\.]+', '-', phone)`: the flag records
whether we are inside a separator run that has already emitted its dash. -/
def collapseAux : Bool → Str → Str
  | _, [] => []
  | inSep, c :: rest =>
    if isSep c then
      if inSep then collapseAux true rest
      else '-' :: collapseAux true rest
    else c :: collapseAux false rest

/-- `re.sub(r'[\s\-\(\)\.]+', '-', phone)` from `clean_data`: every maximal
run of separator characters is replaced by a single dash. -/
def collapseSeps (s : Str) : Str := collapseAux false s

/-- `b.endswith('.')`. -/
def endsWithDot (s : Str) : Bool := s.getLast? = some '.'

/-- The second bullet comprehension of `clean_data`:
`b if b.endswith('.') else b + '.'`. -/
def addDot (b : Str) : Str := if endsWithDot b then b else b ++ ['.']

/-- The two bullet comprehensions of `clean_data` for one `bullets` list:
`[b.strip() for b in bullets if b and b.strip()]` followed by
`[b if b.endswith('.') else b + '.' for b in bullets]`. -/
def cleanBullets (bs : List Str) : List Str :=
  ((bs.filter (fun b => !(b = []) && !(strip b = []))).map strip).map addDot

/-- The notes comprehension of `clean_data`:
`[n.strip() for n in notes if n and n.strip()]`. -/
def cleanNotes (ns : List Str) : List Str :=
  (ns.filter (fun n => !(n = []) && !(strip n = []))).map strip

/-- The `header` dictionary of a resume record: the fixed key set used by
the code, `none` meaning the key is absent. -/
structure Header where
  name : Option Str := none
  phone : Option Str := none
  email : Option Str := none
  location : Option Str := none
  linkedin : Option Str := none
  portfolio : Option Str := none
  github : Option Str := none
deriving DecidableEq, Repr

/-- The header part of `clean_data`: strip every string value in place,
then, if `header.get('phone')` is truthy, collapse phone separators. -/
def cleanHeader (h : Header) : Header :=
  let h' : Header :=
    { name := h.name.map strip, phone := h.phone.map strip,
      email := h.email.map strip, location := h.location.map strip,
      linkedin := h.linkedin.map strip, portfolio := h.portfolio.map strip,
      github := h.github.map strip }
  match h'.phone with
  | some p => if p = [] then h' else { h' with phone := some (collapseSeps p) }
  | none => h'

/-- One `experience` entry. -/
structure ExpItem where
  title : Option Str := none
  company : Option Str := none
  location : Option Str := none
  dates : Option Str := none
  bullets : Option (List Str) := none
deriving DecidableEq, Repr

/-- One `projects` entry. -/
structure ProjItem where
  name : Option Str := none
  description : Option Str := none
  dates : Option Str := none
  bullets : Option (List Str) := none
deriving DecidableEq, Repr

/-- One `education` entry. -/
structure EduItem where
  degree : Option Str := none
  school : Option Str := none
  location : Option Str := none
  dates : Option Str := none
  gpa : Option Str := none
  notes : Option (List Str) := none
deriving DecidableEq, Repr

/-- One `competitions` entry. -/
structure CompItem where
  name : Option Str := none
  organization : Option Str := none
  location : Option Str := none
  date : Option Str := none
  bullets : Option (List Str) := none
deriving DecidableEq, Repr

/-- One `certifications` entry. -/
structure CertItem where
  name : Option Str := none
  date : Option Str := none
deriving DecidableEq, Repr

/-- The top-level resume record: fixed key set of the code, `none` meaning
the key is absent from the JSON object. `technical_skills` is an
insertion-ordered mapping category name to skills string. -/
structure Resume where
  header : Option Header := none
  technical_skills : Option (List (Str × Str)) := none
  education : Option (List EduItem) := none
  experience : Option (List ExpItem) := none
  projects : Option (List ProjItem) := none
  competitions : Option (List CompItem) := none
  certifications : Option (List CertItem) := none
deriving DecidableEq, Repr

/-- `clean_data` on one experience entry: bullets cleaned when the
`bullets` key is present. -/
def cleanExpItem (e : ExpItem) : ExpItem :=
  { e with bullets := e.bullets.map cleanBullets }

/-- `clean_data` on one projects entry. -/
def cleanProjItem (p : ProjItem) : ProjItem :=
  { p with bullets := p.bullets.map cleanBullets }

/-- `clean_data` on one education entry: notes cleaned when the `notes`
key is present. -/
def cleanEduItem (e : EduItem) : EduItem :=
  { e with notes := e.notes.map cleanNotes }

/-- `JSONValidator.clean_data` as a function on record values: header
strings stripped and phone normalized, experience and projects bullets
cleaned, education notes cleaned; the other sections pass through. -/
def clean_data (r : Resume) : Resume :=
  { r with
    header := r.header.map cleanHeader,
    experience := r.experience.map (List.map cleanExpItem),
    projects := r.projects.map (List.map cleanProjItem),
    education := r.education.map (List.map cleanEduItem) }

/-! ### Style applier (`style_applier.py`) -/

/-- The `formatting_patterns` dictionary produced by
`TemplateAnalyzer._identify_patterns`: classified style-name lists and the
insertion-ordered frequency tables font name to count and font size to
count.  A size key is `float(run.font.size.pt)`; docx stores sizes in
half-points, so keys such as `10.5` are realizable, and the float values
are embedded as exact rationals. -/
structure FormattingPatterns where
  heading_styles : List Str := []
  body_styles : List Str := []
  list_styles : List Str := []
  common_fonts : List (Str × Nat) := []
  common_sizes : List (ℚ × Nat) := []
deriving DecidableEq, Repr

/-- `{}` as a formatting-patterns dictionary (the default of
`stats.get('formatting_patterns', {})`). -/
def emptyPatterns : FormattingPatterns := {}

/-- The part of the template-statistics dictionary consulted by
`StyleApplier.get_template_font` and `get_template_size`: the
`formatting_patterns` key, `none` meaning the key is absent. -/
structure TemplateStats where
  formatting_patterns : Option FormattingPatterns := none
deriving DecidableEq, Repr

/-- Worker for CPython `max(d, key=d.get)` over an insertion-ordered
dictionary: scans left to right and replaces the current best only on a
strictly greater count, so the first key attaining the maximal count wins. -/
def pyMaxByValAux (bk : Str) (bv : Nat) : List (Str × Nat) → Str
  | [] => bk
  | (k, v) :: rest => if bv < v then pyMaxByValAux k v rest else pyMaxByValAux bk bv rest

/-- CPython `max(l)` on a nonempty list of numbers (`0` is junk for `[]`,
which the code never passes). -/
def pyListMax : List ℚ → ℚ
  | [] => 0
  | x :: xs => xs.foldl max x

/-- CPython `min(l)` on a nonempty list of numbers (`0` is junk for `[]`,
which the code never passes). -/
def pyListMin : List ℚ → ℚ
  | [] => 0
  | x :: xs => xs.foldl min x

/-- Python `int()` applied to a float carried exactly as a rational:
truncation toward zero (`int(10.5) = 10`, `int(-10.5) = -10`). -/
def pyInt (q : ℚ) : Int := q.num.tdiv (q.den : Int)

/-- `StyleApplier.get_template_font`:
`max(common_fonts, key=common_fonts.get) if common_fonts else 'Calibri'`. -/
def get_template_font (stats : TemplateStats) : Str :=
  let patterns := stats.formatting_patterns.getD emptyPatterns
  match patterns.common_fonts with
  | [] => "Calibri".data
  | (k, v) :: rest => pyMaxByValAux k v rest

/-- The key list of a statistics record's `common_sizes` table. -/
def sizeKeys (stats : TemplateStats) : List ℚ :=
  ((stats.formatting_patterns.getD emptyPatterns).common_sizes).map Prod.fst

/-- `StyleApplier.get_template_size`: `return 11` when the size table is
empty; otherwise sort the key list and branch on the context, truncating
with `int()` as the source does (`int(max(sizes))`, `int(max(sizes) + 4)`,
`int(min(sizes))`), with the (unreachable) `else 14` / `else 18` defaults
of the source kept in place. -/
def get_template_size (stats : TemplateStats) (context : Str) : Int :=
  let patterns := stats.formatting_patterns.getD emptyPatterns
  let common_sizes := patterns.common_sizes
  if common_sizes = [] then 11
  else
    let sizes := (common_sizes.map Prod.fst).insertionSort (· ≤ ·)
    if context = "heading".data then (if sizes = [] then 14 else pyInt (pyListMax sizes))
    else if context = "name".data then
      (if sizes = [] then 18 else pyInt (pyListMax sizes + 4))
    else (if sizes = [] then 11 else pyInt (pyListMin sizes))

/-! ### Validators (`utils.py`, `JSONValidator`) -/

/-- CPython `re` semantics of a fully anchored pattern `^...$`: the body
must consume the whole string, or all of it except one final newline
(`$` also matches just before a trailing newline). -/
def matchToEnd (body : Str → Bool) (s : Str) : Bool :=
  body s || (s.getLast? = some '\n' && body s.dropLast)

/-- The class `[a-zA-Z0-9._%+-]` of the email regex. -/
def isEmailLocalChar (c : Char) : Bool :=
  c.isAlphanum || c = '.' || c = '_' || c = '%' || c = '+' || c = '-'

/-- The class `[a-zA-Z0-9.-]` of the email regex. -/
def isEmailDomainChar (c : Char) : Bool := c.isAlphanum || c = '.' || c = '-'

/-- Split a string around the first occurrence of a character. -/
def splitAtFirst (c : Char) : Str → Option (Str × Str)
  | [] => none
  | a :: t =>
    if a = c then some ([], t)
    else (splitAtFirst c t).map (fun pr => (a :: pr.1, pr.2))

/-- Split a string around the last occurrence of a character. -/
def splitAtLast (c : Char) (s : Str) : Option (Str × Str) :=
  match splitAtFirst c s.reverse with
  | none => none
  | some (revSuf, revPre) => some (revPre.reverse, revSuf.reverse)

/-- The language of the email body
`[a-zA-Z0-9._%+-]+@[a-zA-Z0-9.-]+\.[a-zA-Z]{2,}`.  The local part has no
`@`, so the split is at the first `@`; the TLD is letters only, so the
only possible `\.` split of the domain is at its last dot. -/
def emailBody (s : Str) : Bool :=
  match splitAtFirst '@' s with
  | none => false
  | some (lcl, rest) =>
    match splitAtLast '.' rest with
    | none => false
    | some (dom, tld) =>
      !(lcl = []) && lcl.all isEmailLocalChar &&
      !(dom = []) && dom.all isEmailDomainChar &&
      decide (2 ≤ tld.length) && tld.all Char.isAlpha

/-- `JSONValidator.validate_email`: full-string match of
`^[a-zA-Z0-9._%+-]+@[a-zA-Z0-9.-]+\.[a-zA-Z]{2,}$`. -/
def validate_email (email : Str) : Bool := matchToEnd emailBody email

/-- The body `\+?\d{10,15}`: an optional leading plus (a leading `+`
cannot be matched by `\d`, so the optional branch is forced) and 10 to 15
digits. -/
def phoneBody : Str → Bool
  | '+' :: ds => decide (10 ≤ ds.length) && decide (ds.length ≤ 15) && ds.all Char.isDigit
  | ds => decide (10 ≤ ds.length) && decide (ds.length ≤ 15) && ds.all Char.isDigit

/-- `JSONValidator.validate_phone`: remove the separator characters
(`re.sub(r'[\s\-\(\)\.]+', '', phone)`) and match `^\+?\d{10,15}$`. -/
def validate_phone (phone : Str) : Bool :=
  matchToEnd phoneBody (phone.filter (fun c => !(isSep c)))

/-- The class `[-a-zA-Z0-9@:%._\+~#=]` of the URL regex host part. -/
def isUrlCoreChar (c : Char) : Bool :=
  c.isAlphanum || c = '-' || c = '@' || c = ':' || c = '%' || c = '.' || c = '_' ||
  c = '+' || c = '~' || c = '#' || c = '='

/-- The class `[a-zA-Z0-9()]` of the URL regex after the last required dot. -/
def isUrlTldChar (c : Char) : Bool := c.isAlphanum || c = '(' || c = ')'

/-- The class `[-a-zA-Z0-9()@:%_\+.~#?&//=]` of the URL regex trailing group. -/
def isUrlTrailChar (c : Char) : Bool :=
  c.isAlphanum || c = '-' || c = '(' || c = ')' || c = '@' || c = ':' || c = '%' ||
  c = '_' || c = '+' || c = '.' || c = '~' || c = '#' || c = '?' || c = '&' ||
  c = '/' || c = '='

/-- Regex word characters `[a-zA-Z0-9_]`, for `\b`. -/
def isWordChar (c : Char) : Bool := c.isAlphanum || c = '_'

/-- `\b` followed by `([-a-zA-Z0-9()@:%_\+.~#?&//=]*)$`, checked at the
position after the TLD chunk whose last character is `bl`. -/
def urlTail (bl : Char) (t : Str) : Bool :=
  (isWordChar bl != (match t.head? with | some c => isWordChar c | none => false)) &&
  (t.all isUrlTrailChar || (t.getLast? = some '\n' && t.dropLast.all isUrlTrailChar))

/-- `\.[a-zA-Z0-9()]{1,6}\b([-a-zA-Z0-9()@:%_\+.~#?&//=]*)$` applied after
the dot: try each chunk length from 1 to 6. -/
def urlChunk (r : Str) : Bool :=
  (List.range 6).any (fun j =>
    let m := j + 1
    decide (m ≤ r.length) &&
    ((r.take m).all isUrlTldChar) &&
    (match (r.take m).getLast? with
     | some bl => urlTail bl (r.drop m)
     | none => false))

/-- `[-a-zA-Z0-9@:%._\+~#=]{1,256}\.` followed by `urlChunk`: try each
host length from 1 to 256 (bounded by the string length). -/
def urlHost (r : Str) : Bool :=
  (List.range (min r.length 256)).any (fun i0 =>
    let i := i0 + 1
    ((r.take i).all isUrlCoreChar) &&
    (match (r.drop i).head? with | some c => decide (c = '.') | none => false) &&
    urlChunk (r.drop (i + 1)))

/-- The URL regex after the mandatory scheme: `(www\.)?` then host. -/
def urlAfterScheme (r : Str) : Bool :=
  urlHost r || (("www.".data).isPrefixOf r && urlHost (r.drop 4))

/-- `JSONValidator.validate_url`: full match of
`^https?:\/\/(www\.)?[-a-zA-Z0-9@:%._\+~#=]{1,256}\.[a-zA-Z0-9()]{1,6}\b([-a-zA-Z0-9()@:%_\+.~#?&//=]*)$`. -/
def validate_url (url : Str) : Bool :=
  if ("https://".data).isPrefixOf url then urlAfterScheme (url.drop 8)
  else if ("http://".data).isPrefixOf url then urlAfterScheme (url.drop 7)
  else false

/-- Python truthiness of `header.get(key)` for an optional string value. -/
def truthy : Option Str → Bool
  | none => false
  | some s => !(s = [])

/-- `f"Invalid email format: {email}"` and the other error messages of
`validate_structure`. -/
def msgInvalidEmail (e : Str) : Str := "Invalid email format: ".data ++ e

def msgInvalidPhone (p : Str) : Str := "Invalid phone format: ".data ++ p

def msgInvalidUrl (fieldName : Str) : Str := "Invalid URL format: ".data ++ fieldName

def msgMissingHeader : Str := "Missing \x27header\x27 section".data

def msgMissingField (fieldName : Str) : Str :=
  "Missing required field: header.".data ++ fieldName

def msgMissingSection (s : Str) : Str := "Missing \x27".data ++ s ++ "\x27 section".data

/-- URL-field check of `validate_structure` for one of
`linkedin`/`portfolio`/`github`: reports the field name, not the value. -/
def urlFieldError (fieldName : Str) (v : Option Str) : List Str :=
  match v with
  | some u => if !(u = []) && !(validate_url u) then [msgInvalidUrl fieldName] else []
  | none => []

/-- `JSONValidator.validate_structure`: collect the error messages in the
order of the source checks and return `(len(errors) == 0, errors)`. -/
def validate_structure (r : Resume) : Bool × List Str :=
  let headerErrs :=
    match r.header with
    | none => [msgMissingHeader]
    | some h =>
      (if truthy h.name then [] else [msgMissingField "name".data]) ++
      (if truthy h.email then [] else [msgMissingField "email".data]) ++
      (match h.email with
       | some e => if !(e = []) && !(validate_email e) then [msgInvalidEmail e] else []
       | none => []) ++
      (match h.phone with
       | some p => if !(p = []) && !(validate_phone p) then [msgInvalidPhone p] else []
       | none => []) ++
      urlFieldError "linkedin".data h.linkedin ++
      urlFieldError "portfolio".data h.portfolio ++
      urlFieldError "github".data h.github
  let sectionErrs :=
    (if r.technical_skills.isSome then [] else [msgMissingSection "technical_skills".data]) ++
    (if r.education.isSome then [] else [msgMissingSection "education".data]) ++
    (if r.experience.isSome then [] else [msgMissingSection "experience".data])
  let errs := headerErrs ++ sectionErrs
  (errs.length == 0, errs)

/-! ### Template analyzer paragraph samples (`template_analyzer.py`) -/

/-- One run of a source document paragraph, with the attributes read by
`_extract_paragraph_samples`. -/
structure DocRun where
  text : Str := []
  font_name : Option Str := none
  font_size : Option Nat := none
  bold : Option Bool := none
  italic : Option Bool := none
deriving DecidableEq, Repr

/-- One paragraph of a source document, with the attributes read by
`_extract_paragraph_samples`. -/
structure DocParagraph where
  text : Str := []
  style_name : Str := []
  alignment : Option Str := none
  runs : List DocRun := []
deriving DecidableEq, Repr

/-- The `run_info` dictionary built for each sampled run. -/
structure SampleRun where
  text : Str
  font_name : Option Str
  font_size : Option Nat
  bold : Option Bool
  italic : Option Bool
deriving DecidableEq, Repr

/-- The `sample` dictionary built for one kept paragraph. -/
structure ParagraphSample where
  index : Nat
  text_preview : Str
  style_name : Str
  alignment : Option Str
  runs : List SampleRun
deriving DecidableEq, Repr

/-- The sample record for paragraph `p` at enumeration index `i`:
`text[:50]` preview and the first 3 runs with `text[:20]` previews. -/
def sampleOfParagraph (i : Nat) (p : DocParagraph) : ParagraphSample :=
  { index := i, text_preview := p.text.take 50, style_name := p.style_name,
    alignment := p.alignment,
    runs := (p.runs.take 3).map (fun r =>
      { text := r.text.take 20, font_name := r.font_name, font_size := r.font_size,
        bold := r.bold, italic := r.italic }) }

/-- `TemplateAnalyzer._extract_paragraph_samples`: iterate
`enumerate(doc.paragraphs[:20])` and skip paragraphs whose text is empty
after stripping. -/
def extract_paragraph_samples (paras : List DocParagraph) : List ParagraphSample :=
  (paras.take 20).enum.filterMap (fun pr =>
    if strip pr.2.text = [] then none else some (sampleOfParagraph pr.1 pr.2))

/-- An empty paragraph (skipped by the sampler). -/
def blankPara : DocParagraph := {}

/-- A one-character non-empty paragraph. -/
def fullPara : DocParagraph := { text := "x".data }

/-! ### Document builder (`resume_generator.py`, `ResumeBuilder`) -/

/-- The fields of `DocumentConfig` that determine the text content of the
generated paragraphs and runs. -/
structure DocumentConfig where
  font_name : Str := "Calibri".data
  font_size_normal : Nat := 11
  font_size_heading : Nat := 14
  font_size_section : Nat := 12
  font_size_name : Nat := 20
deriving DecidableEq, Repr

/-- One run of a generated paragraph: the builder sets font name, size and
the bold/italic flags on the runs it formats; a run it leaves unformatted
(the tab runs) keeps `font = none`, `size = none` and unset flags. -/
structure Run where
  text : Str
  font : Option Str := none
  size : Option Nat := none
  bold : Bool := false
  italic : Bool := false
deriving DecidableEq, Repr

/-- One generated paragraph: its runs, its style name, whether
`alignment = CENTER` was set, and whether `add_horizontal_line` attached a
bottom border. -/
structure Paragraph where
  runs : List Run := []
  style : Str := "Normal".data
  center : Bool := false
  border : Bool := false
deriving DecidableEq, Repr

/-- A run formatted by the builder with the configured font. -/
def formattedRun (cfg : DocumentConfig) (text : Str) (size : Nat)
    (bold : Bool) (italic : Bool) : Run :=
  { text := text, font := some cfg.font_name, size := some size,
    bold := bold, italic := italic }

/-- `para.add_run('\t' * n)`: an unformatted tab run. -/
def tabRun (n : Nat) : Run := { text := List.replicate n '\t' }

/-- `doc.add_paragraph()` with nothing added: the blank separator. -/
def blankParagraph : Paragraph := {}

/-- The centered empty paragraph with a bottom border produced by
`ResumeFormatter.add_horizontal_line`. -/
def hlinePara : Paragraph := { center := true, border := true }

/-- Python `str.upper()` on the ASCII titles the builder passes. -/
def toUpperStr (s : Str) : Str := s.map Char.toUpper

/-- A bulleted line (`doc.add_paragraph(style='List Bullet')` with one
formatted normal-size run). -/
def bulletPara (cfg : DocumentConfig) (text : Str) : Paragraph :=
  { runs := [formattedRun cfg text cfg.font_size_normal false false],
    style := "List Bullet".data }

/-- `ResumeBuilder.add_section_header`: one paragraph holding the
upper-cased bold title at section size, followed by the horizontal rule. -/
def add_section_header (cfg : DocumentConfig) (title : Str) : List Paragraph :=
  [{ runs := [formattedRun cfg (toUpperStr title) cfg.font_size_section true false] },
   hlinePara]

/-- The section-title paragraph alone (the first element emitted by
`add_section_header` for the given title). -/
def sectionHeadingPara (cfg : DocumentConfig) (title : Str) : Paragraph :=
  { runs := [formattedRun cfg (toUpperStr title) cfg.font_size_section true false] }

/-- The contact parts joined on the second header line, in source order
(phone, email, location), keeping only truthy fields. -/
def contactParts (h : Header) : List Str :=
  (if truthy h.phone then [h.phone.getD []] else []) ++
  (if truthy h.email then [h.email.getD []] else []) ++
  (if truthy h.location then [h.location.getD []] else [])

/-- The link labels on the third header line. -/
def linkLabels (h : Header) : List Str :=
  (if truthy h.linkedin then ["LinkedIn".data] else []) ++
  (if truthy h.portfolio then ["Portfolio".data] else []) ++
  (if truthy h.github then ["GitHub".data] else [])

/-- `ResumeBuilder.add_header`: centered name line at name size, an
optional centered contact line, an optional centered links line, and a
trailing blank spacing paragraph. -/
def add_header (cfg : DocumentConfig) (h : Header) : List Paragraph :=
  [{ runs := [formattedRun cfg (h.name.getD []) cfg.font_size_name true false],
     center := true }] ++
  (if contactParts h = [] then []
   else [{ runs := [formattedRun cfg (List.intercalate " | ".data (contactParts h))
             cfg.font_size_normal false false], center := true }]) ++
  (if linkLabels h = [] then []
   else [{ runs := [formattedRun cfg (List.intercalate " | ".data (linkLabels h))
             cfg.font_size_normal false false], center := true }]) ++
  [blankParagraph]

/-- `f"{category:<15}"`: left-justify in a field of width 15. -/
def padCategory (s : Str) : Str := s ++ List.replicate (15 - s.length) ' '

/-- `ResumeBuilder.add_technical_skills`: heading plus one two-run line per
category (bold padded category, then the skills string). -/
def add_technical_skills (cfg : DocumentConfig) (skills : List (Str × Str)) :
    List Paragraph :=
  add_section_header cfg "Technical Skills".data ++
  skills.map (fun kv =>
    { runs := [formattedRun cfg (padCategory kv.1) cfg.font_size_normal true false,
               formattedRun cfg kv.2 cfg.font_size_normal false false] })

/-- The school line text: `f"{school} — {gpa}"` when the gpa is truthy. -/
def schoolText (e : EduItem) : Str :=
  if truthy e.gpa then e.school.getD [] ++ " — ".data ++ e.gpa.getD []
  else e.school.getD []

/-- The paragraphs emitted for one education entry: degree/dates line,
school/location line, then one bulleted line per note. -/
def eduBlock (cfg : DocumentConfig) (e : EduItem) : List Paragraph :=
  [{ runs := [formattedRun cfg (e.degree.getD []) cfg.font_size_normal true false,
              tabRun 2,
              formattedRun cfg (e.dates.getD []) cfg.font_size_normal false false] },
   { runs := [formattedRun cfg (schoolText e) cfg.font_size_normal false false,
              tabRun 3,
              formattedRun cfg (e.location.getD []) cfg.font_size_normal false false] }] ++
  (e.notes.getD []).map (bulletPara cfg)

/-- `ResumeBuilder.add_education`. -/
def add_education (cfg : DocumentConfig) (education : List EduItem) : List Paragraph :=
  add_section_header cfg "Education".data ++ education.flatMap (eduBlock cfg)

/-- The paragraphs emitted for one experience entry: title/dates line,
company/location line (italic), then one bulleted line per bullet. -/
def expBlock (cfg : DocumentConfig) (e : ExpItem) : List Paragraph :=
  [{ runs := [formattedRun cfg (e.title.getD []) cfg.font_size_normal true false,
              tabRun 3,
              formattedRun cfg (e.dates.getD []) cfg.font_size_normal false false] },
   { runs := [formattedRun cfg (e.company.getD []) cfg.font_size_normal false true,
              tabRun 4,
              formattedRun cfg (e.location.getD []) cfg.font_size_normal false true] }] ++
  (e.bullets.getD []).map (bulletPara cfg)

/-- `ResumeBuilder.add_experience`: heading, then each entry block followed
by a blank separator when `experiences.index(exp) < len(experiences) - 1`
(note: `list.index` finds the FIRST equal entry). -/
def add_experience (cfg : DocumentConfig) (exps : List ExpItem) : List Paragraph :=
  add_section_header cfg "Experience".data ++
  (exps.map (fun e => expBlock cfg e ++
    (if exps.indexOf e < exps.length - 1 then [blankParagraph] else []))).flatten

/-- The project name text: name, then `" | description"` when truthy. -/
def projNameText (p : ProjItem) : Str :=
  p.name.getD [] ++
  (if truthy p.description then " | ".data ++ p.description.getD [] else [])

/-- The paragraphs emitted for one project entry. -/
def projBlock (cfg : DocumentConfig) (p : ProjItem) : List Paragraph :=
  [{ runs := [formattedRun cfg (projNameText p) cfg.font_size_normal true false,
              tabRun 1,
              formattedRun cfg (p.dates.getD []) cfg.font_size_normal false false] }] ++
  (p.bullets.getD []).map (bulletPara cfg)

/-- `ResumeBuilder.add_projects`. -/
def add_projects (cfg : DocumentConfig) (projects : List ProjItem) : List Paragraph :=
  add_section_header cfg "Projects".data ++ projects.flatMap (projBlock cfg)

/-- The paragraphs emitted for one competition entry. -/
def compBlock (cfg : DocumentConfig) (c : CompItem) : List Paragraph :=
  [{ runs := [formattedRun cfg (c.name.getD []) cfg.font_size_normal true false,
              tabRun 4,
              formattedRun cfg (c.date.getD []) cfg.font_size_normal false false] },
   { runs := [formattedRun cfg (c.organization.getD []) cfg.font_size_normal false false,
              tabRun 4,
              formattedRun cfg (c.location.getD []) cfg.font_size_normal false false] }] ++
  (c.bullets.getD []).map (bulletPara cfg)

/-- `ResumeBuilder.add_competitions`. -/
def add_competitions (cfg : DocumentConfig) (competitions : List CompItem) :
    List Paragraph :=
  add_section_header cfg "Coding Competitions".data ++ competitions.flatMap (compBlock cfg)

/-- One certification line: a `List Bullet` paragraph with name, tabs and
date. -/
def certPara (cfg : DocumentConfig) (c : CertItem) : Paragraph :=
  { runs := [formattedRun cfg (c.name.getD []) cfg.font_size_normal false false,
             tabRun 4,
             formattedRun cfg (c.date.getD []) cfg.font_size_normal false false],
    style := "List Bullet".data }

/-- `ResumeBuilder.add_certifications`. -/
def add_certifications (cfg : DocumentConfig) (certifications : List CertItem) :
    List Paragraph :=
  add_section_header cfg "Certifications".data ++ certifications.map (certPara cfg)

/-- `ResumeBuilder.build_resume`: the sections in fixed order, each emitted
when its key is present in the record (even when its sequence is empty),
with a blank spacing paragraph after every section except certifications. -/
def build_resume (cfg : DocumentConfig) (r : Resume) : List Paragraph :=
  (match r.header with | some h => add_header cfg h | none => []) ++
  (match r.technical_skills with
   | some sk => add_technical_skills cfg sk ++ [blankParagraph] | none => []) ++
  (match r.education with
   | some ed => add_education cfg ed ++ [blankParagraph] | none => []) ++
  (match r.experience with
   | some ex => add_experience cfg ex ++ [blankParagraph] | none => []) ++
  (match r.projects with
   | some ps => add_projects cfg ps ++ [blankParagraph] | none => []) ++
  (match r.competitions with
   | some cs => add_competitions cfg cs ++ [blankParagraph] | none => []) ++
  (match r.certifications with
   | some ce => add_certifications cfg ce | none => [])

/-- Blocks joined with exactly one blank separator between consecutive
blocks and none after the last. -/
def joinWithBlankBetween : List (List Paragraph) → List Paragraph
  | [] => []
  | [b] => b
  | b :: bs => b ++ [blankParagraph] ++ joinWithBlankBetween bs

/-! ### Generation pipeline (`resume_generator.py`, `ResumeGenerator`) -/

/-- A filesystem/converter action performed by the generation pipeline.
`deleteFile` is in the vocabulary so that its absence from every trace is a
provable statement: the pipeline never rolls an artifact back. -/
inductive FsAction where
  | mkdirP (dir : Str)
  | writeDocx (path : Str) (doc : List Paragraph)
  | writePdf (path : Str)
  | deleteFile (path : Str)
deriving DecidableEq, Repr

/-- Outcomes of the external collaborators of one `generate_from_json`
call: JSON loading, `Document.save`, and the `docx2pdf` converter. -/
structure Env where
  loadResult : Except Str Resume
  saveResult : Except Str Unit
  convertResult : Except Str Unit

/-- `os.path.dirname`: everything before the last slash, empty when there
is no slash. -/
def dirname (p : Str) : Str :=
  match splitAtLast '/' p with
  | some (dir, _) => dir
  | none => []

/-- `os.path.join(dir, name)` for the relative paths built here. -/
def joinPath (dir name : Str) : Str :=
  if dir = [] then name
  else if dir.getLast? = some '/' then dir ++ name
  else dir ++ "/".data ++ name

/-- `ResumeGenerator.generate_word`: build the document and save it; a save
failure is logged and re-raised. -/
def generate_word (cfg : DocumentConfig) (env : Env) (data : Resume) (path : Str) :
    Except Str (Str × List FsAction) :=
  let doc := build_resume cfg data
  match env.saveResult with
  | .ok _ => .ok (path, [FsAction.writeDocx path doc])
  | .error e => .error e

/-- `ResumeGenerator.generate_pdf`: call the external converter; on any
failure, log and return `None` instead of raising. -/
def generate_pdf (env : Env) (pdf_path : Str) : Option Str × List FsAction :=
  match env.convertResult with
  | .ok _ => (some pdf_path, [FsAction.writePdf pdf_path])
  | .error _ => (none, [])

/-- The output directory of `generate_from_json`:
`output_dir` when given, else `os.path.dirname(json_path) or '.'`. -/
def outDir (json_path : Str) (output_dir : Option Str) : Str :=
  match output_dir with
  | some d => d
  | none => if dirname json_path = [] then ".".data else dirname json_path

/-- `ResumeGenerator.generate_from_json`: load the record, pick the output
directory, create it, build the timestamped paths, write the Word document,
then try the PDF conversion; `now` is the `datetime.now()` timestamp
string.  Returns the `(word_path, pdf_result)` pair together with the
trace of filesystem actions performed. -/
def generate_from_json (cfg : DocumentConfig) (env : Env) (json_path : Str)
    (output_dir : Option Str) (base_name : Str) (now : Str) :
    Except Str ((Str × Option Str) × List FsAction) :=
  match env.loadResult with
  | .error e => .error e
  | .ok data =>
    let dir := outDir json_path output_dir
    let word_path := joinPath dir (base_name ++ "_".data ++ now ++ ".docx".data)
    let pdf_path := joinPath dir (base_name ++ "_".data ++ now ++ ".pdf".data)
    match generate_word cfg env data word_path with
    | .error e => .error e
    | .ok (wp, acts) =>
      let pdfRes := generate_pdf env pdf_path
      .ok ((wp, pdfRes.1), FsAction.mkdirP dir :: (acts ++ pdfRes.2))

/-! ### Reference model of `clean_data` mutation (C10) -/

/-- Addressed lookup in a heap fragment. -/
def lookupA {α : Type} (m : List (Nat × α)) (a : Nat) : Option α :=
  (m.find? (fun kv => kv.1 == a)).map Prod.snd

/-- Point update of a heap fragment: in-place mutation of the object at
address `a`. -/
def storeUpdate {α : Type} (m : List (Nat × α)) (a : Nat) (f : α → α) :
    List (Nat × α) :=
  m.map (fun kv => if kv.1 = a then (kv.1, f kv.2) else kv)

/-- The heap of nested objects of a resume record: the header dictionary
and the per-entry item dictionaries live at addresses. -/
structure Store where
  headers : List (Nat × Header) := []
  expItems : List (Nat × ExpItem) := []
  projItems : List (Nat × ProjItem) := []
  eduItems : List (Nat × EduItem) := []
deriving Repr

/-- The top-level record dictionary as CPython holds it: its section
values are references to nested objects (the experience/projects/education
lists hold references to the item dictionaries). -/
structure RecordRefs where
  header : Option Nat := none
  technical_skills : Option (List (Str × Str)) := none
  experience : Option (List Nat) := none
  projects : Option (List Nat) := none
  education : Option (List Nat) := none
deriving DecidableEq, Repr

/-- `clean_data` over the reference model: `cleaned = data.copy()` copies
only the top-level dictionary, so the returned record holds the same
references as the input; the header dictionary and each item dictionary
are then mutated in place through those shared references. -/
def clean_data_state (r : RecordRefs) (s : Store) : RecordRefs × Store :=
  let s1 := match r.header with
    | some a => { s with headers := storeUpdate s.headers a cleanHeader }
    | none => s
  let s2 := match r.experience with
    | some addrs =>
      { s1 with expItems := addrs.foldl (fun m a => storeUpdate m a cleanExpItem) s1.expItems }
    | none => s1
  let s3 := match r.projects with
    | some addrs =>
      { s2 with projItems := addrs.foldl (fun m a => storeUpdate m a cleanProjItem) s2.projItems }
    | none => s2
  let s4 := match r.education with
    | some addrs =>
      { s3 with eduItems := addrs.foldl (fun m a => storeUpdate m a cleanEduItem) s3.eduItems }
    | none => s3
  (r, s4)

/-- A header carrying each of the malformed contact fields of C7. -/
def headerEx : Header :=
  { name := some "Test User".data, email := some "invalid-email".data,
    phone := some "123".data, linkedin := some "example.com".data,
    portfolio := some "example.com".data, github := some "example.com".data }

/-- A record carrying `headerEx`. -/
def recordEx : Resume := { header := some headerEx }

/-- A sample environment whose converter fails. -/
def envEx : Env :=
  { loadResult := .ok {}, saveResult := .ok (),
    convertResult := .error "converter unavailable".data }

/-- The sample reference record and heap of the C10 witness. -/
def refsEx : RecordRefs := { header := some 0, experience := some [1] }

/-- A heap whose header name needs trimming and whose single experience
item has a bullet lacking a period. -/
def storeEx : Store :=
  { headers := [(0, { name := some " X ".data })],
    expItems := [(1, { bullets := some ["b".data] })] }

/-! ### Lemmas about `strip` -/

theorem dropWhile_head_false {p : Char → Bool} :
    ∀ (l : Str) {c : Char}, (l.dropWhile p).head? = some c → p c = false := by
  intro l
  induction l with
  | nil => intro c h; simp [List.dropWhile] at h
  | cons a t ih =>
    intro c h
    by_cases hp : p a
    · rw [List.dropWhile_cons, if_pos hp] at h
      exact ih h
    · rw [List.dropWhile_cons, if_neg hp] at h
      simp at h
      subst h
      simpa using hp

theorem dropWhile_eq_self_of_head {p : Char → Bool} :
    ∀ (l : Str), (∀ c, l.head? = some c → p c = false) → l.dropWhile p = l := by
  intro l h
  cases l with
  | nil => rfl
  | cons a t =>
    have := h a (by rfl)
    rw [List.dropWhile_cons, if_neg (by simp [this])]

theorem dropTrailing_prefix (s : Str) : dropTrailing s <+: s := by
  have h : (s.reverse.dropWhile isPySpace) <:+ s.reverse := List.dropWhile_suffix _
  have h2 : (s.reverse.dropWhile isPySpace).reverse <+: s.reverse.reverse :=
    List.reverse_prefix.mpr h
  rw [List.reverse_reverse] at h2
  exact h2

theorem head_of_prefix {l s : Str} {c : Char} (h : l <+: s) (hc : l.head? = some c) :
    s.head? = some c := by
  obtain ⟨t, rfl⟩ := h
  cases l with
  | nil => simp at hc
  | cons a b => simpa using hc

theorem strip_head_false {s : Str} {c : Char} (h : (strip s).head? = some c) :
    isPySpace c = false := by
  have hpre : strip s <+: dropLeading s := dropTrailing_prefix _
  have h2 : (s.dropWhile isPySpace).head? = some c := head_of_prefix hpre h
  exact dropWhile_head_false s h2

theorem strip_getLast_false {s : Str} {c : Char} (h : (strip s).getLast? = some c) :
    isPySpace c = false := by
  have : ((dropLeading s).reverse.dropWhile isPySpace).reverse.getLast? = some c := h
  rw [List.getLast?_reverse] at this
  exact dropWhile_head_false _ this

theorem strip_eq_self {s : Str}
    (h1 : ∀ c, s.head? = some c → isPySpace c = false)
    (h2 : ∀ c, s.getLast? = some c → isPySpace c = false) : strip s = s := by
  have e1 : dropLeading s = s := dropWhile_eq_self_of_head s h1
  have e2 : dropTrailing s = s := by
    unfold dropTrailing
    rw [dropWhile_eq_self_of_head s.reverse (by
      intro c hc
      rw [List.head?_reverse] at hc
      exact h2 c hc)]
    exact s.reverse_reverse
  unfold strip
  rw [e1, e2]

theorem strip_strip (s : Str) : strip (strip s) = strip s :=
  strip_eq_self (fun _ h => strip_head_false h) (fun _ h => strip_getLast_false h)

theorem strip_eq_self_of_no_space {s : Str}
    (h : ∀ c ∈ s, isPySpace c = false) : strip s = s := by
  refine strip_eq_self (fun c hc => ?_) (fun c hc => ?_)
  · cases s with
    | nil => simp at hc
    | cons a t =>
      simp at hc
      exact hc ▸ h a (by simp)
  · have : s.reverse.head? = some c := by rw [List.head?_reverse]; exact hc
    cases hr : s.reverse with
    | nil => rw [hr] at this; simp at this
    | cons a t =>
      rw [hr] at this
      simp at this
      have ha : a ∈ s := by
        have : a ∈ s.reverse := by rw [hr]; simp
        simpa using this
      exact this ▸ h a ha

theorem strip_eq_nil_iff (s : Str) : strip s = [] ↔ s.all isPySpace := by
  constructor
  · intro h
    have h2 : (dropLeading s).reverse.dropWhile isPySpace = [] := by
      have : ((dropLeading s).reverse.dropWhile isPySpace).reverse = [] := h
      simpa using this
    rw [List.dropWhile_eq_nil_iff] at h2
    have hall : ∀ c ∈ dropLeading s, isPySpace c := by
      intro c hc
      exact h2 c (by simpa using hc)
    rw [List.all_eq_true]
    intro c hc
    rcases List.mem_append.mp
      ((List.takeWhile_append_dropWhile (p := isPySpace) (l := s)) ▸ hc) with h3 | h3
    · exact List.mem_takeWhile_imp h3
    · exact hall c h3
  · intro h
    rw [List.all_eq_true] at h
    have e1 : dropLeading s = [] := by
      rw [dropLeading, List.dropWhile_eq_nil_iff]
      intro c hc; exact h c hc
    simp [strip, e1, dropTrailing]

/-! ### Lemmas about `collapseSeps` -/

theorem isSep_of_space {c : Char} (h : isPySpace c = true) : isSep c = true := by
  simp [isSep, h]

theorem collapse_no_space : ∀ (b : Bool) (s : Str) (c : Char),
    c ∈ collapseAux b s → isPySpace c = false := by
  intro b s
  induction s generalizing b with
  | nil => intro c h; simp [collapseAux] at h
  | cons a t ih =>
    intro c h
    by_cases ha : isSep a
    · rw [collapseAux, if_pos ha] at h
      cases b with
      | true => exact ih true c h
      | false =>
        simp at h
        rcases h with h | h
        · subst h; rfl
        · exact ih true c h
    · rw [collapseAux, if_neg ha] at h
      simp at h
      rcases h with h | h
      · subst h
        by_contra hc
        simp at hc
        exact ha (isSep_of_space hc)
      · exact ih false c h

theorem collapse_true_head_not_sep : ∀ (s : Str) {c : Char},
    (collapseAux true s).head? = some c → isSep c = false := by
  intro s
  induction s with
  | nil => intro c h; simp [collapseAux] at h
  | cons a t ih =>
    intro c h
    by_cases ha : isSep a
    · rw [collapseAux, if_pos ha] at h
      exact ih h
    · rw [collapseAux, if_neg ha] at h
      simp at h
      subst h
      simpa using ha

theorem collapseAux_true_eq_false (s : Str)
    (h : ∀ c, s.head? = some c → isSep c = false) :
    collapseAux true s = collapseAux false s := by
  cases s with
  | nil => rfl
  | cons a t =>
    have := h a rfl
    rw [collapseAux, collapseAux, if_neg (by simp [this]), if_neg (by simp [this])]

theorem collapse_idem : ∀ (s : Str) (b : Bool),
    collapseAux false (collapseAux b s) = collapseAux b s := by
  intro s
  induction s with
  | nil => intro b; cases b <;> rfl
  | cons a t ih =>
    intro b
    by_cases ha : isSep a
    · cases b with
      | true =>
        rw [collapseAux, if_pos ha]
        exact ih true
      | false =>
        rw [collapseAux, if_pos ha]
        show collapseAux false ('-' :: collapseAux true t) = '-' :: collapseAux true t
        rw [collapseAux, if_pos (by rfl)]
        simp only [Bool.false_eq_true, if_false]
        congr 1
        rw [collapseAux_true_eq_false _ (fun c h => collapse_true_head_not_sep t h)]
        exact ih true
    · rw [collapseAux, if_neg ha]
      show collapseAux false (a :: collapseAux false t) = a :: collapseAux false t
      rw [collapseAux, if_neg ha]
      congr 1
      exact ih false

theorem collapseSeps_idem (s : Str) : collapseSeps (collapseSeps s) = collapseSeps s :=
  collapse_idem s false

theorem collapseSeps_ne_nil {s : Str} (h : s ≠ []) : collapseSeps s ≠ [] := by
  cases s with
  | nil => exact absurd rfl h
  | cons a t =>
    unfold collapseSeps collapseAux
    by_cases ha : isSep a
    · rw [if_pos ha]
      simp
    · rw [if_neg ha]
      simp

theorem strip_collapseSeps (s : Str) : strip (collapseSeps s) = collapseSeps s :=
  strip_eq_self_of_no_space (fun c hc => collapse_no_space false s c hc)

/-! ### Idempotence of cleaning (C4) and bullet normalization (C5) -/

theorem strip_nil : strip ([] : Str) = [] := rfl

theorem strip_comp : strip ∘ strip = strip := funext strip_strip

theorem cleanHeader_idem (h : Header) : cleanHeader (cleanHeader h) = cleanHeader h := by
  cases hp : h.phone with
  | none =>
    simp [cleanHeader, hp, strip_comp, strip_strip]
  | some p =>
    by_cases hpe : strip p = []
    · simp [cleanHeader, hp, hpe, strip_comp, strip_strip, strip_nil]
    · simp [cleanHeader, hp, hpe, strip_comp, strip_strip, strip_collapseSeps,
        collapseSeps_ne_nil hpe, collapseSeps_idem]

theorem addDot_ne_nil {t : Str} (h : t ≠ []) : addDot t ≠ [] := by
  unfold addDot
  split
  · exact h
  · simp

theorem endsWithDot_addDot (t : Str) : endsWithDot (addDot t) = true := by
  unfold addDot
  split
  · assumption
  · simp [endsWithDot]

theorem strip_addDot_strip (b : Str) (h : strip b ≠ []) :
    strip (addDot (strip b)) = addDot (strip b) := by
  refine strip_eq_self (fun c hc => ?_) (fun c hc => ?_)
  · unfold addDot at hc
    split at hc
    · exact strip_head_false hc
    · rw [List.head?_append] at hc
      cases he : (strip b).head? with
      | none => exact absurd (List.head?_eq_none_iff.mp he) h
      | some d =>
        rw [he] at hc
        simp at hc
        exact hc ▸ strip_head_false he
  · unfold addDot at hc
    split at hc
    · exact strip_getLast_false hc
    · rw [List.getLast?_concat] at hc
      simp at hc
      subst hc
      rfl

theorem mem_cleanBullets {bs : List Str} {x : Str} (hx : x ∈ cleanBullets bs) :
    ∃ b, strip b ≠ [] ∧ x = addDot (strip b) := by
  unfold cleanBullets at hx
  simp only [List.mem_map, List.mem_filter] at hx
  obtain ⟨t, ⟨b, ⟨_, hcond⟩, rfl⟩, rfl⟩ := hx
  simp at hcond
  exact ⟨b, hcond.2, rfl⟩

theorem cleanBullets_fixed {l : List Str}
    (h : ∀ x ∈ l, x ≠ [] ∧ strip x = x ∧ endsWithDot x = true) :
    cleanBullets l = l := by
  unfold cleanBullets
  have hf : l.filter (fun b => !(b = []) && !(strip b = [])) = l :=
    List.filter_eq_self.mpr (by
      intro x hx
      obtain ⟨h1, h2, _⟩ := h x hx
      simp [h1, h2])
  rw [hf]
  have hs : l.map strip = l := by
    conv_rhs => rw [← List.map_id l]
    exact List.map_congr_left (fun x hx => (h x hx).2.1)
  rw [hs]
  conv_rhs => rw [← List.map_id l]
  refine List.map_congr_left (fun x hx => ?_)
  simp [addDot, (h x hx).2.2]

theorem cleanBullets_idem (bs : List Str) :
    cleanBullets (cleanBullets bs) = cleanBullets bs := by
  refine cleanBullets_fixed (fun x hx => ?_)
  obtain ⟨b, hb, rfl⟩ := mem_cleanBullets hx
  exact ⟨addDot_ne_nil hb, strip_addDot_strip b hb, endsWithDot_addDot _⟩

theorem mem_cleanNotes {ns : List Str} {x : Str} (hx : x ∈ cleanNotes ns) :
    ∃ n, strip n ≠ [] ∧ x = strip n := by
  unfold cleanNotes at hx
  simp only [List.mem_map, List.mem_filter] at hx
  obtain ⟨n, ⟨_, hcond⟩, rfl⟩ := hx
  simp at hcond
  exact ⟨n, hcond.2, rfl⟩

theorem cleanNotes_fixed {l : List Str} (h : ∀ x ∈ l, x ≠ [] ∧ strip x = x) :
    cleanNotes l = l := by
  unfold cleanNotes
  have hf : l.filter (fun n => !(n = []) && !(strip n = [])) = l :=
    List.filter_eq_self.mpr (by
      intro x hx
      obtain ⟨h1, h2⟩ := h x hx
      simp [h1, h2])
  rw [hf]
  conv_rhs => rw [← List.map_id l]
  exact List.map_congr_left (fun x hx => (h x hx).2)

theorem cleanNotes_idem (ns : List Str) : cleanNotes (cleanNotes ns) = cleanNotes ns := by
  refine cleanNotes_fixed (fun x hx => ?_)
  obtain ⟨n, h1, rfl⟩ := mem_cleanNotes hx
  exact ⟨h1, strip_strip n⟩

theorem cleanExpItem_idem (e : ExpItem) : cleanExpItem (cleanExpItem e) = cleanExpItem e := by
  unfold cleanExpItem
  cases e.bullets <;> simp [cleanBullets_idem]

theorem cleanProjItem_idem (p : ProjItem) : cleanProjItem (cleanProjItem p) = cleanProjItem p := by
  unfold cleanProjItem
  cases p.bullets <;> simp [cleanBullets_idem]

theorem cleanEduItem_idem (e : EduItem) : cleanEduItem (cleanEduItem e) = cleanEduItem e := by
  unfold cleanEduItem
  cases e.notes <;> simp [cleanNotes_idem]

/-- C4: cleaning is idempotent: `clean_data (clean_data r) = clean_data r`
for every resume record `r`. -/
theorem clean_data_idempotent (r : Resume) : clean_data (clean_data r) = clean_data r := by
  unfold clean_data
  cases r with
  | mk hd ts ed ex pr co ce =>
    simp only [Option.map_map]
    congr 1
    · cases hd <;> simp [cleanHeader_idem]
    · cases ed <;> simp [Function.comp, cleanEduItem_idem]
    · cases ex <;> simp [Function.comp, cleanExpItem_idem]
    · cases pr <;> simp [Function.comp, cleanProjItem_idem]

/-- C5: bullet normalization: `clean_data` drops every bullet that is empty
or whitespace-only, trims each remaining bullet, leaves a trimmed bullet
that already ends in a period unchanged, and appends exactly one period to
every other trimmed bullet. -/
theorem cleanBullets_normalization (bs : List Str) :
    cleanBullets bs = bs.filterMap (fun b =>
      if b.all isPySpace then none
      else if endsWithDot (strip b) then some (strip b)
      else some (strip b ++ ['.'])) := by
  induction bs with
  | nil => rfl
  | cons b t ih =>
    by_cases hb : strip b = []
    · have hall : b.all isPySpace = true := (strip_eq_nil_iff b).mp hb
      show cleanBullets (b :: t) = _
      unfold cleanBullets
      rw [List.filter_cons_of_neg (by simp [hb])]
      rw [List.filterMap_cons_none (by simp [hall])]
      exact ih
    · have hall : b.all isPySpace = false := by
        cases hba : b.all isPySpace
        · rfl
        · exact absurd ((strip_eq_nil_iff b).mpr hba) hb
      have hbne : b ≠ [] := by
        intro hc
        subst hc
        exact hb rfl
      have hfb : (if b.all isPySpace then (none : Option Str)
          else if endsWithDot (strip b) then some (strip b)
          else some (strip b ++ ['.'])) = some (addDot (strip b)) := by
        rw [hall]
        simp only [Bool.false_eq_true, if_false]
        unfold addDot
        rw [apply_ite some]
      unfold cleanBullets
      rw [List.filter_cons_of_pos (by simp [hbne, hb])]
      rw [List.map_cons, List.map_cons]
      rw [List.filterMap_cons, hfb]
      exact congrArg _ ih

/-! ### Style applier lemmas (C3, C6) -/

theorem foldl_max_mem : ∀ (xs : List ℚ) (a : ℚ),
    xs.foldl max a = a ∨ xs.foldl max a ∈ xs := by
  intro xs
  induction xs with
  | nil => intro a; left; rfl
  | cons x t ih =>
    intro a
    rw [List.foldl_cons]
    rcases ih (max a x) with h | h
    · rcases le_total a x with hle | hle
      · right
        rw [h, max_eq_right hle]
        exact List.mem_cons_self x t
      · left
        rw [h, max_eq_left hle]
    · right
      exact List.mem_cons_of_mem x h

theorem le_foldl_max : ∀ (xs : List ℚ) (a : ℚ), a ≤ xs.foldl max a := by
  intro xs
  induction xs with
  | nil => intro a; exact le_refl a
  | cons x t ih =>
    intro a
    rw [List.foldl_cons]
    exact le_trans (le_max_left a x) (ih (max a x))

theorem mem_le_foldl_max : ∀ (xs : List ℚ) (a x : ℚ), x ∈ xs → x ≤ xs.foldl max a := by
  intro xs
  induction xs with
  | nil => intro a x h; simp at h
  | cons y t ih =>
    intro a x h
    rw [List.foldl_cons]
    rcases List.mem_cons.mp h with rfl | h
    · exact le_trans (le_max_right a x) (le_foldl_max t _)
    · exact ih _ x h

theorem foldl_min_mem : ∀ (xs : List ℚ) (a : ℚ),
    xs.foldl min a = a ∨ xs.foldl min a ∈ xs := by
  intro xs
  induction xs with
  | nil => intro a; left; rfl
  | cons x t ih =>
    intro a
    rw [List.foldl_cons]
    rcases ih (min a x) with h | h
    · rcases le_total a x with hle | hle
      · left
        rw [h, min_eq_left hle]
      · right
        rw [h, min_eq_right hle]
        exact List.mem_cons_self x t
    · right
      exact List.mem_cons_of_mem x h

theorem foldl_min_le : ∀ (xs : List ℚ) (a : ℚ), xs.foldl min a ≤ a := by
  intro xs
  induction xs with
  | nil => intro a; exact le_refl a
  | cons x t ih =>
    intro a
    rw [List.foldl_cons]
    exact le_trans (ih (min a x)) (min_le_left a x)

theorem foldl_min_le_mem : ∀ (xs : List ℚ) (a x : ℚ), x ∈ xs → xs.foldl min a ≤ x := by
  intro xs
  induction xs with
  | nil => intro a x h; simp at h
  | cons y t ih =>
    intro a x h
    rw [List.foldl_cons]
    rcases List.mem_cons.mp h with rfl | h
    · exact le_trans (foldl_min_le t _) (min_le_right a x)
    · exact ih _ x h

theorem pyListMax_mem {l : List ℚ} (h : l ≠ []) : pyListMax l ∈ l := by
  cases l with
  | nil => exact absurd rfl h
  | cons x xs =>
    show xs.foldl max x ∈ x :: xs
    rcases foldl_max_mem xs x with h2 | h2
    · rw [h2]; exact List.mem_cons_self x xs
    · exact List.mem_cons_of_mem x h2

theorem le_pyListMax {l : List ℚ} {x : ℚ} (h : x ∈ l) : x ≤ pyListMax l := by
  cases l with
  | nil => simp at h
  | cons y t =>
    show x ≤ t.foldl max y
    rcases List.mem_cons.mp h with rfl | h2
    · exact le_foldl_max t x
    · exact mem_le_foldl_max t y x h2

theorem pyListMin_mem {l : List ℚ} (h : l ≠ []) : pyListMin l ∈ l := by
  cases l with
  | nil => exact absurd rfl h
  | cons x xs =>
    show xs.foldl min x ∈ x :: xs
    rcases foldl_min_mem xs x with h2 | h2
    · rw [h2]; exact List.mem_cons_self x xs
    · exact List.mem_cons_of_mem x h2

theorem pyListMin_le {l : List ℚ} {x : ℚ} (h : x ∈ l) : pyListMin l ≤ x := by
  cases l with
  | nil => simp at h
  | cons y t =>
    show t.foldl min y ≤ x
    rcases List.mem_cons.mp h with rfl | h2
    · exact foldl_min_le t x
    · exact foldl_min_le_mem t y x h2

/-- C3 (counterexample): on a statistics record whose `common_sizes` table
is empty, `get_template_size` for context `'heading'` returns `11`, not the
`14` the claim states (the `return 11` fires before the context branch, so
the per-context `else 14` / `else 18` defaults are dead code); and on the
realizable half-point table whose single key is `21/2 = 10.5`, the `'body'`
result is the truncated `int(min(sizes))` value `10`, which is not the
minimum observed size `10.5`. -/
theorem get_template_size_empty_heading :
    get_template_size ⟨some emptyPatterns⟩ "heading".data = 11 ∧
    get_template_size ⟨some emptyPatterns⟩ "heading".data ≠ 14 ∧
    get_template_size ⟨some ⟨[], [], [], [], [(Rat.mk' 21 2, 1)]⟩⟩ "body".data = 10 ∧
    ((get_template_size ⟨some ⟨[], [], [], [], [(Rat.mk' 21 2, 1)]⟩⟩ "body".data : ℚ) ≠
      pyListMin (sizeKeys ⟨some ⟨[], [], [], [], [(Rat.mk' 21 2, 1)]⟩⟩)) := by
  refine ⟨rfl, by decide, by decide, by decide⟩

theorem sortMax_spec (l : List ℚ) (h : l ≠ []) :
    (l.insertionSort (· ≤ ·) ≠ []) ∧
    pyListMax (l.insertionSort (· ≤ ·)) ∈ l ∧
    (∀ k ∈ l, k ≤ pyListMax (l.insertionSort (· ≤ ·))) := by
  have hperm := List.perm_insertionSort (fun a b => a ≤ b) l
  have hne2 : l.insertionSort (· ≤ ·) ≠ [] := by
    intro hc
    rw [hc] at hperm
    exact h hperm.symm.eq_nil
  exact ⟨hne2, hperm.mem_iff.mp (pyListMax_mem hne2),
    fun k hkm => le_pyListMax (hperm.mem_iff.mpr hkm)⟩

theorem sortMin_spec (l : List ℚ) (h : l ≠ []) :
    pyListMin (l.insertionSort (· ≤ ·)) ∈ l ∧
    (∀ k ∈ l, pyListMin (l.insertionSort (· ≤ ·)) ≤ k) := by
  have hperm := List.perm_insertionSort (fun a b => a ≤ b) l
  have hne2 : l.insertionSort (· ≤ ·) ≠ [] := by
    intro hc
    rw [hc] at hperm
    exact h hperm.symm.eq_nil
  exact ⟨hperm.mem_iff.mp (pyListMin_mem hne2),
    fun k hkm => pyListMin_le (hperm.mem_iff.mpr hkm)⟩

/-- C3 (amended): when the `common_sizes` table is empty,
`get_template_size` returns `11` for every context (including `'heading'`
and `'name'`, whose `14`/`18` defaults are dead code); when it is
non-empty, the `'heading'` result is `int(max(sizes))`, the `'name'` result
is `int(max(sizes) + 4)`, and every other context (in particular `'body'`)
gets `int(min(sizes))` — the toward-zero truncation of the float size
keys, which differs from the raw minimum/maximum at half-point sizes. -/
theorem get_template_size_spec (stats : TemplateStats) (ctx : Str) :
    (sizeKeys stats = [] → get_template_size stats ctx = 11) ∧
    (sizeKeys stats ≠ [] →
      (ctx = "heading".data →
        ∃ m, m ∈ sizeKeys stats ∧ (∀ k ∈ sizeKeys stats, k ≤ m) ∧
          get_template_size stats ctx = pyInt m) ∧
      (ctx = "name".data →
        ∃ m, m ∈ sizeKeys stats ∧ (∀ k ∈ sizeKeys stats, k ≤ m) ∧
          get_template_size stats ctx = pyInt (m + 4)) ∧
      (ctx ≠ "heading".data → ctx ≠ "name".data →
        ∃ m, m ∈ sizeKeys stats ∧ (∀ k ∈ sizeKeys stats, m ≤ k) ∧
          get_template_size stats ctx = pyInt m)) := by
  constructor
  · intro hk
    have hempty : (stats.formatting_patterns.getD emptyPatterns).common_sizes = [] :=
      List.map_eq_nil_iff.mp hk
    simp only [get_template_size]
    rw [if_pos hempty]
  · intro hk
    have hkeys_ne : (stats.formatting_patterns.getD emptyPatterns).common_sizes.map
        Prod.fst ≠ [] := hk
    have hne : (stats.formatting_patterns.getD emptyPatterns).common_sizes ≠ [] := by
      intro hc
      exact hkeys_ne (by rw [hc]; rfl)
    obtain ⟨hsne, hmax_mem, hmax_ub⟩ := sortMax_spec _ hkeys_ne
    obtain ⟨hmin_mem, hmin_lb⟩ := sortMin_spec _ hkeys_ne
    refine ⟨?_, ?_, ?_⟩
    · intro hctx
      have hres : get_template_size stats ctx = pyInt (pyListMax
          (((stats.formatting_patterns.getD emptyPatterns).common_sizes.map
            Prod.fst).insertionSort (· ≤ ·))) := by
        simp only [get_template_size]
        rw [if_neg hne, hctx, if_pos rfl, if_neg hsne]
      exact ⟨_, hmax_mem, hmax_ub, hres⟩
    · intro hctx
      have hnh : ¬(ctx = "heading".data) := by
        rw [hctx]
        decide
      have hres : get_template_size stats ctx = pyInt (pyListMax
          (((stats.formatting_patterns.getD emptyPatterns).common_sizes.map
            Prod.fst).insertionSort (· ≤ ·)) + 4) := by
        simp only [get_template_size]
        rw [if_neg hne, if_neg hnh, hctx, if_pos rfl, if_neg hsne]
      exact ⟨_, hmax_mem, hmax_ub, hres⟩
    · intro hnh hnn
      have hres : get_template_size stats ctx = pyInt (pyListMin
          (((stats.formatting_patterns.getD emptyPatterns).common_sizes.map
            Prod.fst).insertionSort (· ≤ ·))) := by
        simp only [get_template_size]
        rw [if_neg hne, if_neg hnh, if_neg hnn, if_neg hsne]
      exact ⟨_, hmin_mem, hmin_lb, hres⟩

/-- Closing the amended C3 theorem at a concrete statistics record with a
half-point maximum: table `[(10, 2), (25/2, 1)]`, context `'heading'`,
where the returned size is `int(12.5) = 12`. -/
theorem get_template_size_spec_witness :
    sizeKeys ⟨some ⟨[], [], [], [], [((10 : ℚ), 2), (Rat.mk' 25 2, 1)]⟩⟩ ≠ [] ∧
    (∃ m, m ∈ sizeKeys ⟨some ⟨[], [], [], [], [((10 : ℚ), 2), (Rat.mk' 25 2, 1)]⟩⟩ ∧
      (∀ k ∈ sizeKeys ⟨some ⟨[], [], [], [], [((10 : ℚ), 2), (Rat.mk' 25 2, 1)]⟩⟩,
        k ≤ m) ∧
      get_template_size ⟨some ⟨[], [], [], [], [((10 : ℚ), 2), (Rat.mk' 25 2, 1)]⟩⟩
        "heading".data = pyInt m) := by
  refine ⟨by decide, ?_⟩
  exact ((get_template_size_spec
    ⟨some ⟨[], [], [], [], [((10 : ℚ), 2), (Rat.mk' 25 2, 1)]⟩⟩
    "heading".data).2 (by decide)).1 rfl

/-- C6: the tie-break of `get_template_font` is deterministic.  The embedded
function is a pure function of the styling signature, so repeated calls over
the same signature always return the same name; on the tied table
`Arial = 5, Calibri = 5` (insertion order listing Arial first) CPython
`max(d, key=d.get)` keeps the first key of iteration order, so the result is
always `"Arial"`, never alternating. -/
theorem get_template_font_tie_deterministic (stats : TemplateStats)
    (h : (stats.formatting_patterns.getD emptyPatterns).common_fonts =
        [("Arial".data, 5), ("Calibri".data, 5)]) :
    get_template_font stats = "Arial".data := by
  simp only [get_template_font]
  rw [h]
  decide

/-- Closing the C6 theorem at a concrete signature with the tied table. -/
theorem get_template_font_tie_witness :
    get_template_font
      ⟨some ⟨[], [], [], [("Arial".data, 5), ("Calibri".data, 5)], []⟩⟩ = "Arial".data :=
  get_template_font_tie_deterministic _ rfl

/-! ### Validator theorems (C7) -/

/-- C7: `validate_structure` reports `"Invalid email format"` for header
email `"invalid-email"`, a phone-format error for phone `"123"`, and a
URL-format error for a scheme-less `"example.com"` in any of
`linkedin`/`portfolio`/`github`; and the returned flag is true exactly when
the error list is empty. -/
theorem validate_structure_contact (r : Resume) (h : Header) (hh : r.header = some h) :
    (h.email = some "invalid-email".data →
      ∃ e ∈ (validate_structure r).2, "Invalid email format".data <:+: e) ∧
    (h.phone = some "123".data →
      ∃ e ∈ (validate_structure r).2, "Invalid phone format".data <:+: e) ∧
    (h.linkedin = some "example.com".data →
      ∃ e ∈ (validate_structure r).2, "Invalid URL format".data <:+: e) ∧
    (h.portfolio = some "example.com".data →
      ∃ e ∈ (validate_structure r).2, "Invalid URL format".data <:+: e) ∧
    (h.github = some "example.com".data →
      ∃ e ∈ (validate_structure r).2, "Invalid URL format".data <:+: e) ∧
    ((validate_structure r).1 = true ↔ (validate_structure r).2 = []) := by
  refine ⟨?_, ?_, ?_, ?_, ?_, ?_⟩
  · intro he
    refine ⟨msgInvalidEmail "invalid-email".data, ?_, by decide⟩
    show msgInvalidEmail "invalid-email".data ∈ (validate_structure r).2
    simp only [validate_structure, hh]
    refine List.mem_append_left _ ?_
    refine List.mem_append_left _ ?_
    refine List.mem_append_left _ ?_
    refine List.mem_append_left _ ?_
    refine List.mem_append_left _ ?_
    refine List.mem_append_right _ ?_
    rw [he]
    decide
  · intro hp
    refine ⟨msgInvalidPhone "123".data, ?_, by decide⟩
    show msgInvalidPhone "123".data ∈ (validate_structure r).2
    simp only [validate_structure, hh]
    refine List.mem_append_left _ ?_
    refine List.mem_append_left _ ?_
    refine List.mem_append_left _ ?_
    refine List.mem_append_left _ ?_
    refine List.mem_append_right _ ?_
    rw [hp]
    decide
  · intro hl
    refine ⟨msgInvalidUrl "linkedin".data, ?_, by decide⟩
    show msgInvalidUrl "linkedin".data ∈ (validate_structure r).2
    simp only [validate_structure, hh]
    refine List.mem_append_left _ ?_
    refine List.mem_append_left _ ?_
    refine List.mem_append_left _ ?_
    refine List.mem_append_right _ ?_
    rw [hl]
    decide
  · intro hl
    refine ⟨msgInvalidUrl "portfolio".data, ?_, by decide⟩
    show msgInvalidUrl "portfolio".data ∈ (validate_structure r).2
    simp only [validate_structure, hh]
    refine List.mem_append_left _ ?_
    refine List.mem_append_left _ ?_
    refine List.mem_append_right _ ?_
    rw [hl]
    decide
  · intro hl
    refine ⟨msgInvalidUrl "github".data, ?_, by decide⟩
    show msgInvalidUrl "github".data ∈ (validate_structure r).2
    simp only [validate_structure, hh]
    refine List.mem_append_left _ ?_
    refine List.mem_append_right _ ?_
    rw [hl]
    decide
  · have hfst : (validate_structure r).1 = ((validate_structure r).2.length == 0) := rfl
    rw [hfst]
    simp [List.length_eq_zero]

/-- Closing the C7 theorem on a concrete record whose header carries all
three kinds of malformed contact fields. -/
theorem validate_structure_contact_witness :
    (∃ e ∈ (validate_structure recordEx).2, "Invalid email format".data <:+: e) ∧
    (∃ e ∈ (validate_structure recordEx).2, "Invalid phone format".data <:+: e) ∧
    (∃ e ∈ (validate_structure recordEx).2, "Invalid URL format".data <:+: e) ∧
    ((validate_structure recordEx).1 = true ↔ (validate_structure recordEx).2 = []) := by
  have h := validate_structure_contact recordEx headerEx rfl
  exact ⟨h.1 rfl, h.2.1 rfl, h.2.2.1 rfl, h.2.2.2.2.2⟩

/-! ### Template analyzer theorems (C9) -/

theorem samples_enumFrom (l : List DocParagraph) : ∀ n : Nat,
    ((l.enumFrom n).filterMap (fun pr =>
      if strip pr.2.text = [] then none else some (sampleOfParagraph pr.1 pr.2))).map
        (fun s => s.text_preview) =
    (l.filter (fun p => !(strip p.text = []))).map (fun p => p.text.take 50) := by
  induction l with
  | nil => intro n; rfl
  | cons p t ih =>
    intro n
    show ((((n, p) :: t.enumFrom (n + 1)).filterMap (fun pr =>
      if strip pr.2.text = [] then none else some (sampleOfParagraph pr.1 pr.2))).map
        (fun s => s.text_preview)) = _
    by_cases hsp : strip p.text = []
    · simp only [List.filterMap_cons]
      rw [if_pos hsp]
      rw [List.filter_cons_of_neg (by simp [hsp])]
      exact ih (n + 1)
    · simp only [List.filterMap_cons]
      rw [if_neg hsp]
      rw [List.filter_cons_of_pos (by simp [hsp])]
      exact congrArg (List.cons (p.text.take 50)) (ih (n + 1))

/-- C9 (amended): the sample list holds one sample for each non-empty
paragraph among the first 20 paragraphs of the document (empty paragraphs
among the first 20 reduce the sample count): the previews are exactly the
50-character previews of those paragraphs, in order. -/
theorem extract_paragraph_samples_spec (paras : List DocParagraph) :
    (extract_paragraph_samples paras).map (fun s => s.text_preview) =
      ((paras.take 20).filter (fun p => !(strip p.text = []))).map
        (fun p => p.text.take 50) ∧
    (extract_paragraph_samples paras).length =
      ((paras.take 20).filter (fun p => !(strip p.text = []))).length := by
  have h := samples_enumFrom (paras.take 20) 0
  refine ⟨h, ?_⟩
  have h2 := congrArg List.length h
  simpa using h2

/-- C9 (counterexample): a document whose first paragraph is empty followed
by 20 non-empty paragraphs has at least 20 non-empty paragraphs, yet the
sampler returns only 19 samples: the code samples the non-empty paragraphs
among the first 20 paragraphs, not the first 20 non-empty paragraphs. -/
theorem extract_paragraph_samples_undercount :
    ((blankPara :: List.replicate 20 fullPara).filter
      (fun p => !(strip p.text = []))).length = 20 ∧
    (extract_paragraph_samples (blankPara :: List.replicate 20 fullPara)).length = 19 := by
  exact ⟨rfl, rfl⟩

/-! ### Document builder theorems (C2, C8) -/

theorem paragraph_ne_of_center {p q : Paragraph} (h : p.center ≠ q.center) : p ≠ q :=
  fun hc => h (congrArg Paragraph.center hc)

theorem paragraph_ne_of_style {p q : Paragraph} (h : p.style ≠ q.style) : p ≠ q :=
  fun hc => h (congrArg Paragraph.style hc)

theorem paragraph_ne_of_runsLen {p q : Paragraph} (h : p.runs.length ≠ q.runs.length) :
    p ≠ q :=
  fun hc => h (congrArg (fun x => x.runs.length) hc)

theorem projHeading_ne_blank (cfg : DocumentConfig) :
    sectionHeadingPara cfg "Projects".data ≠ blankParagraph :=
  paragraph_ne_of_runsLen (show (1 : Nat) ≠ 0 by decide)

theorem projHeading_ne_bullet (cfg : DocumentConfig) (b : Str) :
    sectionHeadingPara cfg "Projects".data ≠ bulletPara cfg b :=
  paragraph_ne_of_style (show "Normal".data ≠ "List Bullet".data by decide)

theorem projHeading_not_mem_bullets (cfg : DocumentConfig) (bs : List Str) :
    sectionHeadingPara cfg "Projects".data ∉ bs.map (bulletPara cfg) := by
  intro hm
  obtain ⟨b, _, hb⟩ := List.mem_map.mp hm
  exact projHeading_ne_bullet cfg b hb.symm

theorem projHeading_ne_heading (cfg : DocumentConfig) (title : Str)
    (hne : toUpperStr title ≠ toUpperStr "Projects".data) :
    sectionHeadingPara cfg "Projects".data ≠ sectionHeadingPara cfg title := by
  intro hc
  apply hne
  have h2 := congrArg (fun q => q.runs.map Run.text) hc
  simp only [sectionHeadingPara, formattedRun, List.map_cons, List.map_nil,
    List.cons.injEq, and_true] at h2
  exact h2.symm

theorem projHeading_not_mem_sectionHeader (cfg : DocumentConfig) (title : Str)
    (hne : toUpperStr title ≠ toUpperStr "Projects".data) :
    sectionHeadingPara cfg "Projects".data ∉ add_section_header cfg title := by
  intro hm
  rcases List.mem_cons.mp hm with hm1 | hm1
  · exact projHeading_ne_heading cfg title hne hm1
  · rcases List.mem_cons.mp hm1 with hm2 | hm2
    · exact paragraph_ne_of_center (show false ≠ true by decide) hm2
    · simp at hm2

theorem projHeading_not_mem_with_blank {cfg : DocumentConfig} {l : List Paragraph}
    (h : sectionHeadingPara cfg "Projects".data ∉ l) :
    sectionHeadingPara cfg "Projects".data ∉ l ++ [blankParagraph] := by
  intro hm
  rcases List.mem_append.mp hm with hm | hm
  · exact h hm
  · exact projHeading_ne_blank cfg (List.mem_singleton.mp hm)

theorem projHeading_not_mem_header (cfg : DocumentConfig) (h : Header) :
    sectionHeadingPara cfg "Projects".data ∉ add_header cfg h := by
  intro hm
  unfold add_header at hm
  rcases List.mem_append.mp hm with hm1 | hm1
  · rcases List.mem_append.mp hm1 with hm2 | hm2
    · rcases List.mem_append.mp hm2 with hm3 | hm3
      · exact paragraph_ne_of_center (show false ≠ true by decide)
          (List.mem_singleton.mp hm3)
      · by_cases hcp : contactParts h = []
        · rw [if_pos hcp] at hm3
          simp at hm3
        · rw [if_neg hcp] at hm3
          exact paragraph_ne_of_center (show false ≠ true by decide)
            (List.mem_singleton.mp hm3)
    · by_cases hcp : linkLabels h = []
      · rw [if_pos hcp] at hm2
        simp at hm2
      · rw [if_neg hcp] at hm2
        exact paragraph_ne_of_center (show false ≠ true by decide)
          (List.mem_singleton.mp hm2)
  · exact projHeading_ne_blank cfg (List.mem_singleton.mp hm1)

theorem projHeading_not_mem_tech (cfg : DocumentConfig) (sk : List (Str × Str)) :
    sectionHeadingPara cfg "Projects".data ∉ add_technical_skills cfg sk := by
  intro hm
  unfold add_technical_skills at hm
  rcases List.mem_append.mp hm with hm | hm
  · exact projHeading_not_mem_sectionHeader cfg _ (by decide) hm
  · obtain ⟨kv, _, hkv⟩ := List.mem_map.mp hm
    exact absurd hkv.symm (paragraph_ne_of_runsLen (show (1 : Nat) ≠ 2 by decide))

theorem projHeading_not_mem_eduBlock (cfg : DocumentConfig) (e : EduItem) :
    sectionHeadingPara cfg "Projects".data ∉ eduBlock cfg e := by
  intro hm
  unfold eduBlock at hm
  rcases List.mem_append.mp hm with hm | hm
  · rcases List.mem_cons.mp hm with hm1 | hm1
    · exact absurd hm1 (paragraph_ne_of_runsLen (show (1 : Nat) ≠ 3 by decide))
    · rcases List.mem_cons.mp hm1 with hm2 | hm2
      · exact absurd hm2 (paragraph_ne_of_runsLen (show (1 : Nat) ≠ 3 by decide))
      · simp at hm2
  · exact projHeading_not_mem_bullets cfg _ hm

theorem projHeading_not_mem_edu (cfg : DocumentConfig) (ed : List EduItem) :
    sectionHeadingPara cfg "Projects".data ∉ add_education cfg ed := by
  intro hm
  unfold add_education at hm
  rcases List.mem_append.mp hm with hm | hm
  · exact projHeading_not_mem_sectionHeader cfg _ (by decide) hm
  · obtain ⟨e, _, he⟩ := List.mem_flatMap.mp hm
    exact projHeading_not_mem_eduBlock cfg e he

theorem projHeading_not_mem_expBlock (cfg : DocumentConfig) (e : ExpItem) :
    sectionHeadingPara cfg "Projects".data ∉ expBlock cfg e := by
  intro hm
  unfold expBlock at hm
  rcases List.mem_append.mp hm with hm | hm
  · rcases List.mem_cons.mp hm with hm1 | hm1
    · exact absurd hm1 (paragraph_ne_of_runsLen (show (1 : Nat) ≠ 3 by decide))
    · rcases List.mem_cons.mp hm1 with hm2 | hm2
      · exact absurd hm2 (paragraph_ne_of_runsLen (show (1 : Nat) ≠ 3 by decide))
      · simp at hm2
  · exact projHeading_not_mem_bullets cfg _ hm

theorem projHeading_not_mem_exp (cfg : DocumentConfig) (ex : List ExpItem) :
    sectionHeadingPara cfg "Projects".data ∉ add_experience cfg ex := by
  intro hm
  unfold add_experience at hm
  rcases List.mem_append.mp hm with hm | hm
  · exact projHeading_not_mem_sectionHeader cfg _ (by decide) hm
  · obtain ⟨l, hl, htl⟩ := List.mem_flatten.mp hm
    obtain ⟨e, _, rfl⟩ := List.mem_map.mp hl
    rcases List.mem_append.mp htl with h2 | h2
    · exact projHeading_not_mem_expBlock cfg e h2
    · split at h2
      · exact projHeading_ne_blank cfg (List.mem_singleton.mp h2)
      · simp at h2

theorem projHeading_not_mem_comp (cfg : DocumentConfig) (cs : List CompItem) :
    sectionHeadingPara cfg "Projects".data ∉ add_competitions cfg cs := by
  intro hm
  unfold add_competitions at hm
  rcases List.mem_append.mp hm with hm | hm
  · exact projHeading_not_mem_sectionHeader cfg _ (by decide) hm
  · obtain ⟨c, _, hc⟩ := List.mem_flatMap.mp hm
    unfold compBlock at hc
    rcases List.mem_append.mp hc with hc1 | hc1
    · rcases List.mem_cons.mp hc1 with hm1 | hm1
      · exact absurd hm1 (paragraph_ne_of_runsLen (show (1 : Nat) ≠ 3 by decide))
      · rcases List.mem_cons.mp hm1 with hm2 | hm2
        · exact absurd hm2 (paragraph_ne_of_runsLen (show (1 : Nat) ≠ 3 by decide))
        · simp at hm2
    · exact projHeading_not_mem_bullets cfg _ hc1

theorem projHeading_not_mem_cert (cfg : DocumentConfig) (ce : List CertItem) :
    sectionHeadingPara cfg "Projects".data ∉ add_certifications cfg ce := by
  intro hm
  unfold add_certifications at hm
  rcases List.mem_append.mp hm with hm | hm
  · exact projHeading_not_mem_sectionHeader cfg _ (by decide) hm
  · obtain ⟨c, _, hc⟩ := List.mem_map.mp hm
    exact absurd hc.symm
      (paragraph_ne_of_style (show "Normal".data ≠ "List Bullet".data by decide))

/-- C2 (counterexample): a record that supplies `projects` as an empty
sequence still gets a `PROJECTS` section heading: `'projects' in data` is
true for an empty list, so `add_projects` runs and emits the heading. -/
theorem projects_empty_heading_emitted :
    sectionHeadingPara {} "Projects".data ∈
      build_resume {} ({ projects := some [] } : Resume) := by decide

/-- C2 (amended): the rendered document contains a `PROJECTS` section
heading if and only if the record contains the `projects` key; omitting the
key suppresses the heading, but a present-and-empty sequence still emits
it. -/
theorem projects_heading_iff (cfg : DocumentConfig) (r : Resume) :
    sectionHeadingPara cfg "Projects".data ∈ build_resume cfg r ↔
      r.projects.isSome = true := by
  constructor
  · intro hm
    unfold build_resume at hm
    rcases List.mem_append.mp hm with hm | hm
    rotate_left
    · cases hf : r.certifications with
      | none => simp only [hf] at hm; simp at hm
      | some ce =>
        simp only [hf] at hm
        exact absurd hm (projHeading_not_mem_cert cfg ce)
    rcases List.mem_append.mp hm with hm | hm
    rotate_left
    · cases hf : r.competitions with
      | none => simp only [hf] at hm; simp at hm
      | some cs =>
        simp only [hf] at hm
        exact absurd hm (projHeading_not_mem_with_blank (projHeading_not_mem_comp cfg cs))
    rcases List.mem_append.mp hm with hm | hm
    rotate_left
    · cases hf : r.projects with
      | none => simp only [hf] at hm; simp at hm
      | some ps => rfl
    rcases List.mem_append.mp hm with hm | hm
    rotate_left
    · cases hf : r.experience with
      | none => simp only [hf] at hm; simp at hm
      | some ex =>
        simp only [hf] at hm
        exact absurd hm (projHeading_not_mem_with_blank (projHeading_not_mem_exp cfg ex))
    rcases List.mem_append.mp hm with hm | hm
    rotate_left
    · cases hf : r.education with
      | none => simp only [hf] at hm; simp at hm
      | some ed =>
        simp only [hf] at hm
        exact absurd hm (projHeading_not_mem_with_blank (projHeading_not_mem_edu cfg ed))
    rcases List.mem_append.mp hm with hm | hm
    · cases hf : r.header with
      | none => simp only [hf] at hm; simp at hm
      | some h =>
        simp only [hf] at hm
        exact absurd hm (projHeading_not_mem_header cfg h)
    · cases hf : r.technical_skills with
      | none => simp only [hf] at hm; simp at hm
      | some sk =>
        simp only [hf] at hm
        exact absurd hm (projHeading_not_mem_with_blank (projHeading_not_mem_tech cfg sk))
  · intro hp
    obtain ⟨ps, hps⟩ := Option.isSome_iff_exists.mp hp
    unfold build_resume
    rw [hps]
    refine List.mem_append_left _ ?_
    refine List.mem_append_left _ ?_
    refine List.mem_append_right _ ?_
    refine List.mem_append_left _ ?_
    refine List.mem_append_left _ ?_
    exact List.mem_cons_self _ _

/-! ### Experience separators (C8) -/

theorem add_experience_body (cfg : DocumentConfig) :
    ∀ (exps : List ExpItem), exps.Nodup →
    (exps.map (fun e => expBlock cfg e ++
      (if exps.indexOf e < exps.length - 1 then [blankParagraph] else []))).flatten =
    joinWithBlankBetween (exps.map (expBlock cfg)) := by
  intro exps
  induction exps with
  | nil => intro _; rfl
  | cons e rest ih =>
    intro hnd
    rcases List.nodup_cons.mp hnd with ⟨he, hrest⟩
    have hmap : rest.map (fun x => expBlock cfg x ++
        (if (e :: rest).indexOf x < (e :: rest).length - 1 then [blankParagraph] else [])) =
      rest.map (fun x => expBlock cfg x ++
        (if rest.indexOf x < rest.length - 1 then [blankParagraph] else [])) := by
      refine List.map_congr_left (fun x hx => ?_)
      have hxe : e ≠ x := fun hc => he (hc ▸ hx)
      congr 1
      rw [List.indexOf_cons_ne rest hxe]
      have hlen : (e :: rest).length - 1 = rest.length := rfl
      rw [hlen]
      cases rest with
      | nil => simp at hx
      | cons y ys => simp [Nat.add_lt_add_iff_right, Nat.succ_eq_add_one]
    rw [List.map_cons, List.flatten_cons, hmap, List.indexOf_cons_self]
    cases rest with
    | nil => simp [joinWithBlankBetween]
    | cons f rest2 =>
      have hcond : 0 < (e :: f :: rest2).length - 1 := by simp
      rw [if_pos hcond]
      rw [ih hrest]
      simp [joinWithBlankBetween, List.append_assoc]

/-- C8 (amended): for experience lists without duplicate entries, the
rendered section is the heading followed by the entry blocks joined with
exactly one blank paragraph between consecutive blocks and none after the
last; the blocks themselves contain no blank paragraph.  (With duplicate
entries, `experiences.index(exp)` finds the first duplicate, so a blank is
also emitted after the final entry.) -/
theorem add_experience_separators (cfg : DocumentConfig) (exps : List ExpItem)
    (h : exps.Nodup) :
    add_experience cfg exps =
      add_section_header cfg "Experience".data ++
        joinWithBlankBetween (exps.map (expBlock cfg)) ∧
    ∀ e : ExpItem, blankParagraph ∉ expBlock cfg e := by
  constructor
  · unfold add_experience
    rw [add_experience_body cfg exps h]
  · intro e hm
    unfold expBlock at hm
    rcases List.mem_append.mp hm with hm | hm
    · rcases List.mem_cons.mp hm with hm1 | hm1
      · exact absurd hm1 (paragraph_ne_of_runsLen (show (0 : Nat) ≠ 3 by decide))
      · rcases List.mem_cons.mp hm1 with hm2 | hm2
        · exact absurd hm2 (paragraph_ne_of_runsLen (show (0 : Nat) ≠ 3 by decide))
        · simp at hm2
    · obtain ⟨b, _, hb⟩ := List.mem_map.mp hm
      exact absurd hb
        (paragraph_ne_of_style (show "List Bullet".data ≠ "Normal".data by decide))

/-- Closing the amended C8 theorem on a concrete duplicate-free two-entry
list. -/
theorem add_experience_separators_witness :
    add_experience {} [({ title := some "A".data } : ExpItem), { title := some "B".data }] =
      add_section_header {} "Experience".data ++
        joinWithBlankBetween
          ([({ title := some "A".data } : ExpItem),
            { title := some "B".data }].map (expBlock {})) :=
  (add_experience_separators {} _ (by decide)).1

/-- C8 (counterexample): with two equal experience entries,
`experiences.index(exp)` returns 0 for both iterations, so a blank
separator is also emitted after the final entry, and the rendered section
differs from heading-plus-blocks-with-separators-between. -/
theorem add_experience_dup_blank_after_last :
    (add_experience {} [({} : ExpItem), {}]).getLast? = some blankParagraph ∧
    add_experience {} [({} : ExpItem), {}] ≠
      add_section_header {} "Experience".data ++
        joinWithBlankBetween ([({} : ExpItem), {}].map (expBlock {})) := by
  exact ⟨by decide, by decide⟩

/-! ### Pipeline theorems (C1) -/

/-- C1: whenever loading and Word generation succeed but the external
Word-to-PDF converter fails for any reason, `generate_from_json` still
returns normally with the Word path as first component and `None` as the
PDF component; the trace shows the directory creation and the Word write,
no PDF write, and no deletion — the primary artifact is never rolled
back and the converter failure is never propagated. -/
theorem generate_from_json_pdf_failure (cfg : DocumentConfig) (env : Env)
    (json_path : Str) (output_dir : Option Str) (base_name now : Str)
    (r : Resume) (e : Str)
    (hload : env.loadResult = .ok r)
    (hsave : env.saveResult = .ok ())
    (hconv : env.convertResult = .error e) :
    ∃ wp dir,
      generate_from_json cfg env json_path output_dir base_name now =
        .ok ((wp, none),
          [FsAction.mkdirP dir, FsAction.writeDocx wp (build_resume cfg r)]) ∧
      (∀ p, FsAction.deleteFile p ∉
        [FsAction.mkdirP dir, FsAction.writeDocx wp (build_resume cfg r)]) := by
  refine ⟨joinPath (outDir json_path output_dir)
      (base_name ++ "_".data ++ now ++ ".docx".data),
    outDir json_path output_dir, ?_, ?_⟩
  · simp only [generate_from_json, generate_word, generate_pdf, hload, hsave, hconv]
    rfl
  · intro p hm
    rcases List.mem_cons.mp hm with hc | hc
    · exact FsAction.noConfusion hc
    · rcases List.mem_cons.mp hc with hc2 | hc2
      · exact FsAction.noConfusion hc2
      · simp at hc2

/-- Closing the C1 theorem on a concrete environment with a failing
converter. -/
theorem generate_from_json_pdf_failure_witness :
    ∃ wp dir,
      generate_from_json {} envEx "in.json".data (some "out".data)
          "resume".data "20240101".data =
        .ok ((wp, none),
          [FsAction.mkdirP dir, FsAction.writeDocx wp (build_resume {} {})]) ∧
      (∀ p, FsAction.deleteFile p ∉
        [FsAction.mkdirP dir, FsAction.writeDocx wp (build_resume {} {})]) :=
  generate_from_json_pdf_failure {} envEx "in.json".data (some "out".data)
    "resume".data "20240101".data {} "converter unavailable".data rfl rfl rfl

/-! ### Store theorems (C10) -/

theorem lookupA_storeUpdate_self {α : Type} (m : List (Nat × α)) (a : Nat) (f : α → α) :
    lookupA (storeUpdate m a f) a = (lookupA m a).map f := by
  induction m with
  | nil => rfl
  | cons kv t ih =>
    obtain ⟨k, v⟩ := kv
    by_cases hk : k = a
    · subst hk
      unfold storeUpdate lookupA
      rw [List.map_cons, if_pos rfl]
      rw [List.find?_cons_of_pos _ (by simp), List.find?_cons_of_pos _ (by simp)]
      rfl
    · unfold storeUpdate lookupA
      rw [List.map_cons, if_neg hk]
      rw [List.find?_cons_of_neg _ (by simp [hk]), List.find?_cons_of_neg _ (by simp [hk])]
      exact ih

theorem lookupA_storeUpdate_ne {α : Type} (m : List (Nat × α)) (a b : Nat) (f : α → α)
    (h : b ≠ a) : lookupA (storeUpdate m a f) b = lookupA m b := by
  induction m with
  | nil => rfl
  | cons kv t ih =>
    obtain ⟨k, v⟩ := kv
    by_cases hk : k = a
    · subst hk
      unfold storeUpdate lookupA
      rw [List.map_cons, if_pos rfl]
      rw [List.find?_cons_of_neg _ (by simp [Ne.symm h]),
        List.find?_cons_of_neg _ (by simp [Ne.symm h])]
      exact ih
    · unfold storeUpdate lookupA
      rw [List.map_cons, if_neg hk]
      by_cases hkb : k = b
      · subst hkb
        rw [List.find?_cons_of_pos _ (by simp), List.find?_cons_of_pos _ (by simp)]
      · rw [List.find?_cons_of_neg _ (by simp [hkb]), List.find?_cons_of_neg _ (by simp [hkb])]
        exact ih

theorem lookupA_foldl_not_mem {α : Type} (f : α → α) (addrs : List Nat) (b : Nat)
    (h : b ∉ addrs) : ∀ m : List (Nat × α),
    lookupA (addrs.foldl (fun m a => storeUpdate m a f) m) b = lookupA m b := by
  induction addrs with
  | nil => intro m; rfl
  | cons a rest ih =>
    intro m
    rw [List.foldl_cons]
    have hb : b ∉ rest := fun hc => h (List.mem_cons_of_mem a hc)
    have hba : b ≠ a := fun hc => h (hc ▸ List.mem_cons_self a rest)
    rw [ih hb]
    exact lookupA_storeUpdate_ne m a b f hba

theorem lookupA_foldl_mem {α : Type} (f : α → α) (hf : ∀ x, f (f x) = f x)
    (addrs : List Nat) (b : Nat) (h : b ∈ addrs) : ∀ m : List (Nat × α),
    lookupA (addrs.foldl (fun m a => storeUpdate m a f) m) b = (lookupA m b).map f := by
  induction addrs with
  | nil => simp at h
  | cons a rest ih =>
    intro m
    rw [List.foldl_cons]
    by_cases hbr : b ∈ rest
    · rw [ih hbr]
      by_cases hba : b = a
      · subst hba
        rw [lookupA_storeUpdate_self]
        rw [Option.map_map]
        have hcomp : f ∘ f = f := funext hf
        rw [hcomp]
      · rw [lookupA_storeUpdate_ne m a b f hba]
    · have hba : b = a := by
        rcases List.mem_cons.mp h with hc | hc
        · exact hc
        · exact absurd hc hbr
      subst hba
      rw [lookupA_foldl_not_mem f rest b hbr]
      exact lookupA_storeUpdate_self m b f

/-- C10: `clean_data` copies only the top level.  The returned record holds
the very same references as the input (`(clean_data_state r s).1 = r`), and
when the header needs cleaning and an experience item needs bullet
cleaning, the nested header dictionary and the experience item of the
original input record are mutated in place: reading the input record's own
references through the post-state shows the cleaned values, different from
the pre-state values. -/
theorem clean_data_shallow_copy (r : RecordRefs) (s : Store)
    (a : Nat) (h : Header) (ha : r.header = some a)
    (hl : lookupA s.headers a = some h) (hch : cleanHeader h ≠ h)
    (addrs : List Nat) (b : Nat) (e : ExpItem) (hexp : r.experience = some addrs)
    (hb : b ∈ addrs) (hle : lookupA s.expItems b = some e) :
    (clean_data_state r s).1 = r ∧
    lookupA (clean_data_state r s).2.headers a = some (cleanHeader h) ∧
    lookupA (clean_data_state r s).2.headers a ≠ lookupA s.headers a ∧
    lookupA (clean_data_state r s).2.expItems b = some (cleanExpItem e) := by
  have h1 : (clean_data_state r s).1 = r := rfl
  have h2 : (clean_data_state r s).2.headers = storeUpdate s.headers a cleanHeader := by
    simp only [clean_data_state, ha, hexp]
    cases r.projects <;> cases r.education <;> rfl
  have h3 : (clean_data_state r s).2.expItems =
      addrs.foldl (fun m x => storeUpdate m x cleanExpItem) s.expItems := by
    simp only [clean_data_state, ha, hexp]
    cases r.projects <;> cases r.education <;> rfl
  refine ⟨h1, ?_, ?_, ?_⟩
  · rw [h2, lookupA_storeUpdate_self, hl]
    rfl
  · rw [h2, lookupA_storeUpdate_self, hl]
    simp only [Option.map_some', ne_eq, Option.some.injEq]
    exact hch
  · rw [h3, lookupA_foldl_mem cleanExpItem cleanExpItem_idem addrs b hb, hle]
    rfl

/-- Closing the C10 theorem on `refsEx` and `storeEx`. -/
theorem clean_data_shallow_copy_witness :
    (clean_data_state refsEx storeEx).1 = refsEx ∧
    lookupA (clean_data_state refsEx storeEx).2.headers 0 =
      some (cleanHeader { name := some " X ".data }) ∧
    lookupA (clean_data_state refsEx storeEx).2.headers 0 ≠
      lookupA storeEx.headers 0 ∧
    lookupA (clean_data_state refsEx storeEx).2.expItems 1 =
      some (cleanExpItem { bullets := some ["b".data] }) :=
  clean_data_shallow_copy refsEx storeEx 0 { name := some " X ".data } rfl rfl (by decide)
    [1] 1 { bullets := some ["b".data] } rfl (by decide) rfl

end ResumeGen
